import Mathlib

/-!
Verification of the executable-document engine against its specification.

Each section shallowly embeds one component of the Rust source:

* `IfExec` — the `If` node executor (`documents/src/executable/if_.rs`,
  `If::execute_begin`): clause evaluation order, boolean coercion of the
  evaluated value, and activation of the first truthy clause.
* `Cmd` — the document command coordinator (`document/src/task_command.rs`,
  `Document::command_task`): arbitration between a newly received command and
  the currently running one, and the `PatchExecuteNodes` path.
* `Kspace` — the kernel space (`src/kernels/mod.rs`, `KernelSpace`): the symbol
  table with home kernels, assignment times and mirror timestamps, and the
  `set` / `exec` operations.
* `Runner` — the plan runner (`node-execute/src/execute.rs`, `execute`):
  per-stage dependency checks, dispatch, and post-run status restoration.
* `DomSync` — the DOM synchronizer (`document/src/sync_dom.rs`,
  `Document::sync_dom`): conversion of a Myers diff into `DomOperation`
  values and their application to the old buffer.

Wall-clock times (`DateTime<Utc>`) are modelled as natural numbers; each
embedded operation takes the current time as an explicit argument.  Rust
`HashMap` / `BTreeMap` values are modelled as association lists with
first-match lookup.  Fallible Rust code (`Result`) is modelled with `Except`.
-/

namespace IfExec

/-- Primitive values, as stored inside arrays, objects and datatable columns
(`stencila_schema::Primitive`, reduced to representative variants; only
emptiness of the containers is inspected by the embedded code). -/
inductive Primitive where
  | null
  | boolean (b : Bool)
  | integer (i : Int)
  | str (s : String)
deriving DecidableEq, Repr

/-- A column of a `Datatable` (`stencila_schema::DatatableColumn`); the `If`
executor only inspects `values.is_empty()`. -/
structure DatatableColumn where
  values : List Primitive
deriving DecidableEq, Repr

/-- A `Datatable` (`stencila_schema::Datatable`); the `If` executor only
inspects `columns.first()`. -/
structure Datatable where
  columns : List DatatableColumn
deriving DecidableEq, Repr

/-- A value returned by a kernel (`stencila_schema::Node`).  The variants
matched by `If::execute_begin` are kept; every other variant of the Rust enum
falls into the wildcard arm and is represented by `other`.  The `f64` payload
of `Number` is modelled as a rational; the only operation performed on it is
comparison with zero. -/
inductive Node where
  | null
  | boolean (b : Bool)
  | integer (i : Int)
  | number (n : Rat)
  | str (s : String)
  | array (a : List Primitive)
  | object (m : List (String × Primitive))
  | datatable (dt : Datatable)
  | other
deriving DecidableEq, Repr

/-- Coercion of an evaluated clause value to a boolean condition, exactly as
in the `match condition` expression of `If::execute_begin`
(`documents/src/executable/if_.rs` lines 144-158):

* `Node::Null(..) => false`
* `Node::Boolean(bool) => bool`
* `Node::Integer(int) => int == 0`
* `Node::Number(num) => num.0 == 0.`
* `Node::String(str) => !str.is_empty()`
* `Node::Array(array) => !array.is_empty()`
* `Node::Object(map) => !map.is_empty()`
* `Node::Datatable(dt) => !dt.columns.first().map(|col| !col.values.is_empty()).unwrap_or(false)`
* `_ => true`
-/
def condition : Node → Bool
  | .null => false
  | .boolean b => b
  | .integer i => i == 0
  | .number n => n == 0
  | .str s => !s.isEmpty
  | .array a => !a.isEmpty
  | .object m => !m.isEmpty
  | .datatable dt => !((dt.columns.head?.map (fun col => !col.values.isEmpty)).getD false)
  | .other => true

/-- Boolean coercion as the specification states it: `Null→false`,
`Bool→self`, `Int/Num→(value==0)↦false`, `String/Array/Object/DataTable→
non-emptiness, otherwise true`.  Written from the words of the spec, for
comparison with `condition` (which is written from the source). -/
def conditionSpec : Node → Bool
  | .null => false
  | .boolean b => b
  | .integer i => !(i == 0)
  | .number n => !(n == 0)
  | .str s => !s.isEmpty
  | .array a => !a.isEmpty
  | .object m => !m.isEmpty
  | .datatable dt => ((dt.columns.head?.map (fun col => !col.values.isEmpty)).getD false)
  | .other => true

/-- The emptiness test `clause.text.trim().is_empty()` of the source.  Rust
`str::trim` removes leading and trailing whitespace, so the trimmed string is
empty exactly when every character is whitespace; the test is embedded in
that form because Lean `String.trim` does not reduce in the kernel. -/
def trimIsEmpty (s : String) : Bool :=
  s.data.all Char.isWhitespace

/-- One clause of an `If` node (`stencila_schema::IfClause`, reduced to the
fields read or written by `If::execute_begin`).  `errors` holds the
`Vec<CodeError>` of the clause with each error reduced to its message. -/
structure Clause where
  text : String
  programming_language : String
  is_active : Option Bool
  errors : Option (List String)
deriving DecidableEq, Repr

/-- Result of evaluating the expression of the clause at a given index in its
kernel: the single output value, or the list of error messages.  The kernel
is an external collaborator, so evaluation is a parameter of the embedding
(indexed by clause position, since kernel state may differ between calls). -/
abbrev Eval := Nat → Except (List String) Node

/-- Truthiness of the value the clause expression at index `j` evaluates to:
the evaluation succeeded and the value coerces to `true` under `condition`. -/
def truthy (eval : Eval) (j : Nat) : Bool :=
  match eval j with
  | .ok v => condition v
  | .error _ => false

/-- The loop body of `If::execute_begin` (`documents/src/executable/if_.rs`
lines 97-171), processing the clauses from position `index` with the given
`activated` flag, where `count` is the total number of clauses.  Returns the
updated clauses together with the positions whose expressions were executed
in a kernel (each `kernel_space.exec` call, in order).  The three branches
mirror the source:

1. the trailing else clause (`!activated && index == clauses_count - 1 &&
   clause.text.trim().is_empty()`) is made active and the loop breaks;
2. when `activated`, the clause is only marked inactive (`continue`);
3. otherwise the expression is evaluated in a kernel, `errors` and
   `is_active` are set from the result, and `activated` is raised when the
   condition is `Some(true)`.
-/
def executeGo (eval : Eval) (count : Nat) :
    Nat → Bool → List Clause → List Clause × List Nat
  | _, _, [] => ([], [])
  | index, activated, clause :: rest =>
    if !activated && index == count - 1 && trimIsEmpty clause.text then
      ({ clause with is_active := some true } :: rest, [])
    else if activated then
      let (cs, tr) := executeGo eval count (index + 1) activated rest
      ({ clause with is_active := some false } :: cs, tr)
    else
      match eval index with
      | .ok v =>
        let cond := condition v
        let (cs, tr) := executeGo eval count (index + 1) (activated || cond) rest
        ({ clause with errors := none, is_active := some cond } :: cs, index :: tr)
      | .error errs =>
        let (cs, tr) := executeGo eval count (index + 1) activated rest
        ({ clause with errors := some errs, is_active := none } :: cs, index :: tr)

/-- Execution of an `If` node (`If::execute_begin`): process all clauses from
index `0` with `activated = false`. -/
def executeIf (eval : Eval) (clauses : List Clause) : List Clause × List Nat :=
  executeGo eval clauses.length 0 false clauses

end IfExec

namespace IfExec

lemma truthy_iff (eval : Eval) (j : Nat) :
    truthy eval j = true ↔ ∃ v, eval j = Except.ok v ∧ condition v = true := by
  unfold truthy
  cases h : eval j <;> simp

lemma condition_eq_false_of_truthy_eq_false (eval : Eval) (j : Nat) (v : Node)
    (h : eval j = Except.ok v) (hf : truthy eval j = false) : condition v = false := by
  unfold truthy at hf
  rw [h] at hf
  exact hf


/-- With the `activated` flag raised, the rest of the loop only marks every
remaining clause inactive and performs no kernel execution. -/
lemma executeGo_activated (eval : Eval) (count : Nat) :
    ∀ (clauses : List Clause) (index : Nat),
      executeGo eval count index true clauses
        = (clauses.map (fun c => { c with is_active := some false }), []) := by
  intro clauses
  induction clauses with
  | nil => intro index; simp [executeGo]
  | cons c rest ih =>
    intro index
    simp [executeGo, ih (index + 1)]

/-- Length of the clause list is preserved by the loop. -/
lemma executeGo_length (eval : Eval) (count : Nat) :
    ∀ (clauses : List Clause) (index : Nat) (activated : Bool),
      (executeGo eval count index activated clauses).1.length = clauses.length := by
  intro clauses
  induction clauses with
  | nil => intro index activated; simp [executeGo]
  | cons c rest ih =>
    intro index activated
    cases activated with
    | true => simp [executeGo_activated]
    | false =>
      by_cases hcond : index = count - 1 ∧ trimIsEmpty c.text = true
      · simp [executeGo, hcond]
      · cases hev : eval index with
        | ok v => simp [executeGo, hcond, hev, ih]
        | error errs => simp [executeGo, hcond, hev, ih]

/-- Kernel execution positions recorded by the loop are at least `index` and
strictly increasing. -/
lemma executeGo_trace (eval : Eval) (count : Nat) :
    ∀ (clauses : List Clause) (index : Nat) (activated : Bool),
      List.Chain' (· < ·) (executeGo eval count index activated clauses).2
        ∧ ∀ x ∈ (executeGo eval count index activated clauses).2, index ≤ x := by
  intro clauses
  induction clauses with
  | nil => intro index activated; simp [executeGo]
  | cons c rest ih =>
    intro index activated
    cases activated with
    | true => simp [executeGo_activated]
    | false =>
      by_cases hcond : index = count - 1 ∧ trimIsEmpty c.text = true
      · simp [executeGo, hcond]
      · cases hev : eval index with
        | ok v =>
          obtain ⟨ih1, ih2⟩ := ih (index + 1) (condition v)
          have heq : (executeGo eval count index false (c :: rest)).2
              = index :: (executeGo eval count (index + 1) (condition v) rest).2 := by
            simp [executeGo, hcond, hev]
          rw [heq]
          constructor
          · refine List.chain'_cons'.mpr ⟨?_, ih1⟩
            intro y hy
            have := ih2 y (List.mem_of_mem_head? hy)
            omega
          · intro x hx
            rcases List.mem_cons.mp hx with rfl | hx
            · exact le_refl x
            · have := ih2 x hx
              omega
        | error errs =>
          obtain ⟨ih1, ih2⟩ := ih (index + 1) false
          have heq : (executeGo eval count index false (c :: rest)).2
              = index :: (executeGo eval count (index + 1) false rest).2 := by
            simp [executeGo, hcond, hev]
          rw [heq]
          constructor
          · refine List.chain'_cons'.mpr ⟨?_, ih1⟩
            intro y hy
            have := ih2 y (List.mem_of_mem_head? hy)
            omega
          · intro x hx
            rcases List.mem_cons.mp hx with rfl | hx
            · exact le_refl x
            · have := ih2 x hx
              omega

end IfExec

namespace IfExec

/-- When every clause before the trailing one is not truthy and the trailing
clause has an empty (trimmed) expression, the trailing clause ends active. -/
lemma executeGo_else (eval : Eval) (count : Nat) :
    ∀ (clauses : List Clause) (index : Nat) (clast : Clause),
      count = index + clauses.length →
      clauses.getLast? = some clast →
      trimIsEmpty clast.text = true →
      (∀ j, j < clauses.length - 1 → truthy eval (index + j) = false) →
      ((executeGo eval count index false clauses).1.map Clause.is_active)[clauses.length - 1]?
        = some (some true) := by
  intro clauses
  induction clauses with
  | nil =>
    intro index clast _ hlast
    simp at hlast
  | cons c rest ih =>
    intro index clast hcount hlast hempty hfalsy
    cases rest with
    | nil =>
      simp only [List.getLast?_singleton, Option.some.injEq] at hlast
      subst hlast
      have h1 : index = count - 1 := by
        simp at hcount
        omega
      have heq : (executeGo eval count index false [c]).1
          = [{ c with is_active := some true }] := by
        simp [executeGo, h1, hempty]
      rw [heq]
      simp
    | cons c2 rest2 =>
      have hlast2 : (c2 :: rest2).getLast? = some clast := by
        simpa using hlast
      have hcond : ¬(index = count - 1 ∧ trimIsEmpty c.text = true) := by
        rintro ⟨h1, -⟩
        simp at hcount
        omega
      have hf0 : truthy eval index = false := by
        have := hfalsy 0 (by simp)
        simpa using this
      have hcount2 : count = (index + 1) + (c2 :: rest2).length := by
        simp at hcount ⊢
        omega
      have hfalsy2 : ∀ j, j < (c2 :: rest2).length - 1 →
          truthy eval ((index + 1) + j) = false := by
        intro j hj
        have hj1 : j + 1 < (c :: c2 :: rest2).length - 1 := by
          simp at hj ⊢
          omega
        have := hfalsy (j + 1) hj1
        rw [show (index + 1) + j = index + (j + 1) by omega]
        exact this
      have tail := ih (index + 1) clast hcount2 hlast2 hempty hfalsy2
      have hidx : (c :: c2 :: rest2).length - 1 = ((c2 :: rest2).length - 1) + 1 := by
        simp only [List.length_cons]
        omega
      cases hev : eval index with
      | ok v =>
        have hcv : condition v = false :=
          condition_eq_false_of_truthy_eq_false eval index v hev hf0
        have heq : (executeGo eval count index false (c :: c2 :: rest2)).1
            = { c with errors := none, is_active := some false }
                :: (executeGo eval count (index + 1) false (c2 :: rest2)).1 := by
          simp [executeGo, hcond, hev, hcv]
        rw [heq, List.map_cons, hidx, List.getElem?_cons_succ]
        exact tail
      | error errs =>
        have heq : (executeGo eval count index false (c :: c2 :: rest2)).1
            = { c with errors := some errs, is_active := none }
                :: (executeGo eval count (index + 1) false (c2 :: rest2)).1 := by
          simp [executeGo, hcond, hev]
        rw [heq, List.map_cons, hidx, List.getElem?_cons_succ]
        exact tail

end IfExec

namespace IfExec

/-- When the clause at relative position `i` is the first truthy one and all
evaluations before it succeed, the result marks exactly that clause active. -/
lemma executeGo_first_truthy (eval : Eval) (count : Nat) :
    ∀ (clauses : List Clause) (index i : Nat),
      count = index + clauses.length →
      i < clauses.length →
      (∀ j, j < i → ∃ v, eval (index + j) = Except.ok v) →
      (∀ j, j < i → truthy eval (index + j) = false) →
      truthy eval (index + i) = true →
      (executeGo eval count index false clauses).1.map Clause.is_active
        = (List.range clauses.length).map (fun j => some (decide (j = i))) := by
  intro clauses
  induction clauses with
  | nil =>
    intro index i _ hi
    simp at hi
  | cons c rest ih =>
    intro index i hcount hi hok hfalsy ht
    cases i with
    | zero =>
      rw [Nat.add_zero] at ht
      by_cases hcond : index = count - 1 ∧ trimIsEmpty c.text = true
      · have hrest : rest = [] := by
          cases rest with
          | nil => rfl
          | cons d ds =>
            exfalso
            have h1 := hcond.1
            simp at hcount
            omega
        subst hrest
        have heq : (executeGo eval count index false [c]).1
            = [{ c with is_active := some true }] := by
          simp [executeGo, hcond.1, hcond.2]
        rw [heq]
        simp [List.range_succ]
      · obtain ⟨v, hev, hcv⟩ := (truthy_iff eval index).mp ht
        have heq : (executeGo eval count index false (c :: rest)).1
            = { c with errors := none, is_active := some true }
                :: rest.map (fun cl => { cl with is_active := some false }) := by
          simp [executeGo, hcond, hev, hcv, executeGo_activated]
        rw [heq, List.map_cons]
        simp only [List.length_cons, List.range_succ_eq_map, List.map_cons, List.map_map,
          List.cons.injEq]
        refine ⟨by simp, ?_⟩
        simp [Function.comp_def]
    | succ i' =>
      have hcond : ¬(index = count - 1 ∧ trimIsEmpty c.text = true) := by
        rintro ⟨h1, -⟩
        cases rest with
        | nil => simp at hi
        | cons d ds =>
          simp at hcount
          omega
      obtain ⟨v, hev⟩ := hok 0 (Nat.succ_pos i')
      rw [Nat.add_zero] at hev
      have hcv : condition v = false := by
        refine condition_eq_false_of_truthy_eq_false eval index v hev ?_
        have := hfalsy 0 (Nat.succ_pos i')
        simpa using this
      have heq : (executeGo eval count index false (c :: rest)).1
          = { c with errors := none, is_active := some false }
              :: (executeGo eval count (index + 1) false rest).1 := by
        simp [executeGo, hcond, hev, hcv]
      have ihx := ih (index + 1) i'
        (by simp at hcount ⊢; omega)
        (by simp at hi; omega)
        (fun j hj => by
          have := hok (j + 1) (by omega)
          rwa [show index + (j + 1) = (index + 1) + j by omega] at this)
        (fun j hj => by
          have := hfalsy (j + 1) (by omega)
          rwa [show index + (j + 1) = (index + 1) + j by omega] at this)
        (by rwa [show index + (i' + 1) = (index + 1) + i' by omega] at ht)
      rw [heq, List.map_cons, ihx]
      simp only [List.length_cons, List.range_succ_eq_map, List.map_cons, List.map_map,
        List.cons.injEq]
      constructor
      · simp
      · apply List.map_congr_left
        intro j _
        simp only [Function.comp_apply, Option.some.injEq]
        apply decide_eq_decide.mpr
        omega

end IfExec

namespace IfExec

/-- Frame lemma: once the clause at relative position `i` activates, no later
position is executed in a kernel and each later clause keeps every field but
`is_active`. -/
lemma executeGo_frame (eval : Eval) (count : Nat) :
    ∀ (clauses : List Clause) (index i : Nat),
      count = index + clauses.length →
      i < clauses.length →
      (∀ j, j < i → truthy eval (index + j) = false) →
      truthy eval (index + i) = true →
      (∀ x ∈ (executeGo eval count index false clauses).2, x ≤ index + i)
        ∧ (∀ j, i < j → j < clauses.length →
            ((executeGo eval count index false clauses).1)[j]?
              = (clauses[j]?).map (fun cl => { cl with is_active := some false })) := by
  intro clauses
  induction clauses with
  | nil =>
    intro index i _ hi
    simp at hi
  | cons c rest ih =>
    intro index i hcount hi hfalsy ht
    cases i with
    | zero =>
      rw [Nat.add_zero] at ht
      by_cases hcond : index = count - 1 ∧ trimIsEmpty c.text = true
      · have hrest : rest = [] := by
          cases rest with
          | nil => rfl
          | cons d ds =>
            exfalso
            have h1 := hcond.1
            simp at hcount
            omega
        subst hrest
        have heq : executeGo eval count index false [c]
            = ([{ c with is_active := some true }], []) := by
          simp [executeGo, hcond.1, hcond.2]
        rw [heq]
        refine ⟨by simp, ?_⟩
        intro j hj hj1
        simp at hj1
        omega
      · obtain ⟨v, hev, hcv⟩ := (truthy_iff eval index).mp ht
        have heq : executeGo eval count index false (c :: rest)
            = ({ c with errors := none, is_active := some true }
                :: rest.map (fun cl => { cl with is_active := some false }), [index]) := by
          simp [executeGo, hcond, hev, hcv, executeGo_activated]
        rw [heq]
        refine ⟨by simp, ?_⟩
        intro j hj hj1
        cases j with
        | zero => omega
        | succ j' => simp
    | succ i' =>
      have hcond : ¬(index = count - 1 ∧ trimIsEmpty c.text = true) := by
        rintro ⟨h1, -⟩
        cases rest with
        | nil => simp at hi
        | cons d ds =>
          simp at hcount
          omega
      have ihx := ih (index + 1) i'
        (by simp at hcount ⊢; omega)
        (by simp at hi; omega)
        (fun j hj => by
          have := hfalsy (j + 1) (by omega)
          rwa [show index + (j + 1) = (index + 1) + j by omega] at this)
        (by rwa [show index + (i' + 1) = (index + 1) + i' by omega] at ht)
      have hbound : ∀ x ∈ (executeGo eval count (index + 1) false rest).2,
          x ≤ index + (i' + 1) := by
        intro x hx
        have := ihx.1 x hx
        omega
      cases hev : eval index with
      | ok v =>
        have hcv : condition v = false := by
          refine condition_eq_false_of_truthy_eq_false eval index v hev ?_
          have := hfalsy 0 (Nat.succ_pos i')
          simpa using this
        have heq : executeGo eval count index false (c :: rest)
            = ({ c with errors := none, is_active := some false }
                :: (executeGo eval count (index + 1) false rest).1,
               index :: (executeGo eval count (index + 1) false rest).2) := by
          simp [executeGo, hcond, hev, hcv]
        rw [heq]
        constructor
        · intro x hx
          rcases List.mem_cons.mp hx with rfl | hx
          · omega
          · exact hbound x hx
        · intro j hj hj1
          cases j with
          | zero => omega
          | succ j' =>
            simp only [List.getElem?_cons_succ]
            exact ihx.2 j' (by omega) (by simp at hj1; omega)
      | error errs =>
        have heq : executeGo eval count index false (c :: rest)
            = ({ c with errors := some errs, is_active := none }
                :: (executeGo eval count (index + 1) false rest).1,
               index :: (executeGo eval count (index + 1) false rest).2) := by
          simp [executeGo, hcond, hev]
        rw [heq]
        constructor
        · intro x hx
          rcases List.mem_cons.mp hx with rfl | hx
          · omega
          · exact hbound x hx
        · intro j hj hj1
          cases j with
          | zero => omega
          | succ j' =>
            simp only [List.getElem?_cons_succ]
            exact ihx.2 j' (by omega) (by simp at hj1; omega)

end IfExec

namespace IfExec

/-- C1: the boolean coercion of an evaluated clause value in
`If::execute_begin` diverges from the specified table on the `Integer`,
`Number` and `Datatable` arms: the source maps `0` to `true` and non-zero to
`false` (`int == 0` instead of `int != 0`), and maps a datatable with a
non-empty first column to `false` and an empty one to `true` (the outer `!`
double-negates the non-emptiness test).  On `Null`, `Bool`, `String`,
`Array`, `Object` and the wildcard arm the source and the specification
agree. -/
theorem if_condition_coercion_bug :
    condition (Node.integer 0) = true ∧ conditionSpec (Node.integer 0) = false
    ∧ condition (Node.integer 1) = false ∧ conditionSpec (Node.integer 1) = true
    ∧ condition (Node.number 0) = true ∧ conditionSpec (Node.number 0) = false
    ∧ condition (Node.number 1) = false ∧ conditionSpec (Node.number 1) = true
    ∧ condition (Node.datatable ⟨[⟨[Primitive.integer 2]⟩]⟩) = false
    ∧ conditionSpec (Node.datatable ⟨[⟨[Primitive.integer 2]⟩]⟩) = true
    ∧ condition (Node.datatable ⟨[]⟩) = true
    ∧ conditionSpec (Node.datatable ⟨[]⟩) = false
    ∧ condition Node.null = conditionSpec Node.null
    ∧ condition (Node.boolean true) = conditionSpec (Node.boolean true)
    ∧ condition (Node.str "") = conditionSpec (Node.str "")
    ∧ condition (Node.str "a") = conditionSpec (Node.str "a")
    ∧ condition Node.other = conditionSpec Node.other := by
  decide

/-- C7: for an `If` node, (1) clause expressions are executed in strictly
increasing document order; (2) a trailing clause whose trimmed expression
text is empty becomes active when no earlier clause evaluated truthy; and
(3) when every evaluation before position `i` succeeds, position `i` is the
first truthy clause, then exactly clause `i` ends with `is_active = true` and
every other clause ends with `is_active = false`. -/
theorem if_clause_activation (eval : Eval) (clauses : List Clause) :
    List.Chain' (· < ·) (executeIf eval clauses).2
    ∧ (∀ clast, clauses.getLast? = some clast → trimIsEmpty clast.text = true →
        (∀ j, j < clauses.length - 1 → truthy eval j = false) →
        ((executeIf eval clauses).1.map Clause.is_active)[clauses.length - 1]?
          = some (some true))
    ∧ (∀ i, i < clauses.length →
        (∀ j, j < i → ∃ v, eval j = Except.ok v) →
        truthy eval i = true →
        (∀ j, j < i → truthy eval j = false) →
        (executeIf eval clauses).1.map Clause.is_active
          = (List.range clauses.length).map (fun j => some (decide (j = i)))) := by
  refine ⟨(executeGo_trace eval clauses.length clauses 0 false).1, ?_, ?_⟩
  · intro clast hlast hempty hfalsy
    exact executeGo_else eval clauses.length clauses 0 clast (by simp) hlast hempty
      (fun j hj => by simpa using hfalsy j hj)
  · intro i hi hok ht hfalsy
    exact executeGo_first_truthy eval clauses.length clauses 0 i (by simp) hi
      (fun j hj => by simpa using hok j hj)
      (fun j hj => by simpa using hfalsy j hj)
      (by simpa using ht)

/-- Witness for C7, scenario S4 of the specification: clauses
`(py, "False")` then `(py, "")`; the first evaluates to `false`, so the
trailing empty clause ends active. -/
theorem if_clause_activation_witness :
    ((executeIf (fun _ => Except.ok (Node.boolean false))
        [{ text := "False", programming_language := "python",
           is_active := none, errors := none },
         { text := "", programming_language := "python",
           is_active := none, errors := none }]).1.map Clause.is_active)[2 - 1]?
      = some (some true) :=
  (if_clause_activation (fun _ => Except.ok (Node.boolean false))
      [{ text := "False", programming_language := "python",
         is_active := none, errors := none },
       { text := "", programming_language := "python",
         is_active := none, errors := none }]).2.1
    { text := "", programming_language := "python", is_active := none, errors := none }
    (by rfl) (by decide) (by decide)

/-- C8: once the clause at position `i` activates, no later clause expression
is executed in any kernel (the execution trace stays at positions `≤ i`), and
every later clause is only marked inactive, all its other fields — in
particular `errors` — left unchanged. -/
theorem if_activation_frame (eval : Eval) (clauses : List Clause) (i : Nat)
    (hi : i < clauses.length)
    (ht : truthy eval i = true)
    (hfalsy : ∀ j, j < i → truthy eval j = false) :
    (∀ x ∈ (executeIf eval clauses).2, x ≤ i)
      ∧ (∀ j, i < j → j < clauses.length →
          ((executeIf eval clauses).1)[j]?
            = (clauses[j]?).map (fun cl => { cl with is_active := some false })) := by
  have h := executeGo_frame eval clauses.length clauses 0 i (by simp) hi
    (fun j hj => by simpa using hfalsy j hj) (by simpa using ht)
  exact ⟨fun x hx => by simpa using h.1 x hx, h.2⟩

/-- Clause list for the C8 witness: a truthy first clause followed by a
clause that already carries an `errors` value. -/
def frameClauses : List Clause :=
  [{ text := "1", programming_language := "python",
     is_active := none, errors := none },
   { text := "x", programming_language := "python",
     is_active := none, errors := some ["previous"] }]

/-- Evaluation oracle for the C8 witness: every expression evaluates to the
boolean `true`. -/
def frameEval : Eval := fun _ => Except.ok (Node.boolean true)

/-- Witness for C8: the first clause evaluates truthy, so the second clause
keeps its pre-existing `errors` value and is only marked inactive. -/
theorem if_activation_frame_witness :
    (∀ x ∈ (executeIf frameEval frameClauses).2, x ≤ 0)
      ∧ (∀ j, 0 < j → j < frameClauses.length →
          ((executeIf frameEval frameClauses).1)[j]?
            = (frameClauses[j]?).map (fun cl => { cl with is_active := some false })) :=
  if_activation_frame frameEval frameClauses 0 (by decide) (by decide) (by decide)

end IfExec

namespace Cmd

/-- Stand-in for `schema::Patch`: the command coordinator never inspects the
patch, it only passes it to `schema::patch` (an external collaborator) and
compares commands for equality, so the payload is an opaque token. -/
structure Patch where
  tag : Nat
deriving DecidableEq, BEq, Repr

/-- Stand-in for `node_execute::ExecuteOptions`, likewise only moved around
and compared for equality by the coordinator.  `ExecuteOptions::default()`
is modelled as tag `0`. -/
structure ExecuteOptions where
  tag : Nat
deriving DecidableEq, BEq, Repr

def ExecuteOptions.default : ExecuteOptions := ⟨0⟩

/-- The `CommandNodes { node_ids, scope }` payload of node-targeted commands;
`scope` is an opaque token standing for the scope enum (default `0`). -/
structure CommandNodes where
  node_ids : List String
  scope : Nat
deriving DecidableEq, BEq, Repr

def CommandNodes.default : CommandNodes := ⟨[], 0⟩

/-- Document commands (`document` crate `Command` enum).  The enum itself is
declared outside the sources at hand; its variants and payload shapes are
reconstructed from the exhaustive `match command` in
`Document::command_task` (`document/src/task_command.rs` lines 139-323) and
spec §4.8.  Payloads the coordinator never inspects are reduced to opaque
tokens: `PatchNode` / `PatchNodeContent` / `SaveDocument` /
`ExportDocument` payloads are dropped entirely since no embedded decision
reads them. -/
inductive Command where
  | patchNode (patch : Patch)
  | patchNodeContent
  | compileDocument
  | executeDocument (options : ExecuteOptions)
  | executeNodes (nodes : CommandNodes) (options : ExecuteOptions)
  | patchExecuteNodes (patch : Patch) (nodes : CommandNodes) (options : ExecuteOptions)
  | interruptDocument
  | interruptNodes (nodes : CommandNodes)
  | saveDocument
  | exportDocument
deriving DecidableEq, BEq, Repr

/-- Per-command status reported on the status channel
(`CommandStatus`). -/
inductive CommandStatus where
  | running
  | succeeded
  | failed (msg : String)
  | ignored
  | interrupted
deriving DecidableEq, Repr

/-- Decision taken by the arbitration `match (&command, current_command)` in
`Document::command_task` (`document/src/task_command.rs` lines 57-129) when
the current task is unfinished. -/
inductive Arbitration where
  | ignore
  | interruptDocumentCurrent
  | interruptNodesCurrent (abortCurrent : Bool)
  | proceed
deriving DecidableEq, Repr

/-- The arbitration decision, one arm per source pattern:

* `(CompileDocument | ExecuteDocument(..), ExecuteDocument(..))` → ignore the
  new command, reporting `CommandStatus::Ignored`;
* `(InterruptDocument, ExecuteDocument(..) | ExecuteNodes(..))` → abort the
  current task and interrupt all nodes;
* `(InterruptNodes(..), ExecuteDocument(..) | ExecuteNodes(..))` → interrupt
  those nodes, aborting the current task iff `&command == current_command`
  (embedded verbatim; the two sides are always different variants here);
* `_` → fall through and run the new command.
-/
def arbitrate (command current : Command) : Arbitration :=
  match command, current with
  | .compileDocument, .executeDocument _ => .ignore
  | .executeDocument _, .executeDocument _ => .ignore
  | .interruptDocument, .executeDocument _ => .interruptDocumentCurrent
  | .interruptDocument, .executeNodes _ _ => .interruptDocumentCurrent
  | .interruptNodes n, .executeDocument o =>
      .interruptNodesCurrent (Command.interruptNodes n == Command.executeDocument o)
  | .interruptNodes n, .executeNodes m o =>
      .interruptNodesCurrent (Command.interruptNodes n == Command.executeNodes m o)
  | _, _ => .proceed

/-- The value stored in `current_command_details` when the command spawns a
cancellable task (`task_command.rs` lines 201, 216, 244-248): compile and
execute-document store themselves, while `ExecuteNodes` and
`PatchExecuteNodes` store a default `ExecuteNodes`; every other command
leaves `current_command_details` unset. -/
def currentAfter (command : Command) : Option Command :=
  match command with
  | .compileDocument => some .compileDocument
  | .executeDocument o => some (.executeDocument o)
  | .executeNodes _ _ => some (.executeNodes CommandNodes.default ExecuteOptions.default)
  | .patchExecuteNodes _ _ _ =>
      some (.executeNodes CommandNodes.default ExecuteOptions.default)
  | _ => none

/-- Truth of `matches!(command, CompileDocument)`. -/
def Command.isCompileDocument : Command → Bool
  | .compileDocument => true
  | _ => false

/-- Truth of `matches!(command, ExecuteDocument(..))`. -/
def Command.isExecuteDocument : Command → Bool
  | .executeDocument _ => true
  | _ => false

end Cmd

namespace Cmd

/-- Counterexample to C2: with an unfinished `ExecuteDocument` as the current
command, a new `ExecuteNodes` is not ignored but runs; and with an unfinished
`ExecuteNodes` as the current command, a new `CompileDocument` (or
`ExecuteDocument`) is not ignored either — the ignore arm of the source only
matches `(CompileDocument | ExecuteDocument(..), ExecuteDocument(..))`. -/
theorem command_arbitration_counterexample :
    arbitrate (Command.executeNodes CommandNodes.default ExecuteOptions.default)
        (Command.executeDocument ExecuteOptions.default) = Arbitration.proceed
    ∧ arbitrate Command.compileDocument
        (Command.executeNodes CommandNodes.default ExecuteOptions.default)
      = Arbitration.proceed
    ∧ arbitrate (Command.executeDocument ExecuteOptions.default)
        (Command.executeNodes CommandNodes.default ExecuteOptions.default)
      = Arbitration.proceed
    ∧ Arbitration.proceed ≠ Arbitration.ignore := by
  decide

/-- C2 as amended: while the current task is unfinished, a new command is
ignored (reported `Ignored`) exactly when the new command is
`CompileDocument` or `ExecuteDocument` and the current command is
`ExecuteDocument`; in every other pairing — in particular a new
`ExecuteNodes` against a current `ExecuteDocument`, or any new command
against a current `ExecuteNodes` — the new command is not ignored. -/
theorem command_arbitration_ignore_iff (command current : Command) :
    arbitrate command current = Arbitration.ignore
      ↔ ((command.isCompileDocument || command.isExecuteDocument)
          && current.isExecuteDocument) = true := by
  cases command <;> cases current <;>
    simp [arbitrate, Command.isCompileDocument, Command.isExecuteDocument]

/-- Witness for the amended C2 at a concrete pair: `CompileDocument` against
a running `ExecuteDocument` is ignored. -/
theorem command_arbitration_ignore_iff_witness :
    arbitrate Command.compileDocument (Command.executeDocument ExecuteOptions.default)
      = Arbitration.ignore :=
  (command_arbitration_ignore_iff Command.compileDocument
      (Command.executeDocument ExecuteOptions.default)).mpr (by decide)

/-- Result of the `ExecuteNodes | PatchExecuteNodes` arm of
`Document::command_task` up to the spawning of the execution task:
the (possibly patched) root, the command statuses sent before the task is
spawned, whether the execution task is spawned, and the stored
`current_command_details` command. -/
structure ArmResult (Root : Type) where
  root : Root
  sent : List CommandStatus
  executionSpawned : Bool
  current : Option Command
deriving Repr

/-- The `ExecuteNodes((nodes, options)) | PatchExecuteNodes((.., nodes,
options))` arm (`document/src/task_command.rs` lines 218-249).  `applyPatch`
stands for `schema::patch` (defined outside the sources at hand): it returns
the mutated root and, on failure, the error message.  For
`PatchExecuteNodes` the patch is applied to the root first; on `Err(error)`
the source builds `CommandStatus::Failed(format!(..))` as a bare expression
statement (line 222) that is dropped on the spot — it is never passed to
`send_status` — and control continues to spawn the execution task, so the
two error branches below send nothing and both spawn. -/
def executeNodesArm {Root : Type} (applyPatch : Root → Patch → Root × Option String)
    (root : Root) (command : Command) : ArmResult Root :=
  match command with
  | .executeNodes _ _ =>
      { root := root, sent := [], executionSpawned := true,
        current := some (.executeNodes CommandNodes.default ExecuteOptions.default) }
  | .patchExecuteNodes patch _ _ =>
      let applied := applyPatch root patch
      match applied.2 with
      | some _ =>
          { root := applied.1, sent := [], executionSpawned := true,
            current := some (.executeNodes CommandNodes.default ExecuteOptions.default) }
      | none =>
          { root := applied.1, sent := [], executionSpawned := true,
            current := some (.executeNodes CommandNodes.default ExecuteOptions.default) }
  | _ => { root := root, sent := [], executionSpawned := false, current := none }

/-- C9: for `PatchExecuteNodes`, the patch is applied to the root before
execution starts, and when the application fails the failure is silently
discarded: no `Failed` (indeed no) status is sent for it and the execution
task is spawned anyway. -/
theorem patch_execute_nodes_silent_discard {Root : Type}
    (applyPatch : Root → Patch → Root × Option String) (root : Root)
    (patch : Patch) (nodes : CommandNodes) (options : ExecuteOptions)
    (err : String) (h : (applyPatch root patch).2 = some err) :
    (executeNodesArm applyPatch root (.patchExecuteNodes patch nodes options)).root
        = (applyPatch root patch).1
    ∧ (executeNodesArm applyPatch root (.patchExecuteNodes patch nodes options)).sent = []
    ∧ (executeNodesArm applyPatch root
        (.patchExecuteNodes patch nodes options)).executionSpawned = true := by
  simp [executeNodesArm, h]

/-- Witness for C9: a patch application that always fails still leaves the
sent-status list empty and spawns execution. -/
theorem patch_execute_nodes_silent_discard_witness :
    (executeNodesArm (fun (r : Nat) (_ : Patch) => (r + 1, some "patch failed")) 0
        (.patchExecuteNodes ⟨0⟩ CommandNodes.default ExecuteOptions.default)).root
        = ((fun (r : Nat) (_ : Patch) => (r + 1, some "patch failed")) 0 ⟨0⟩).1
    ∧ (executeNodesArm (fun (r : Nat) (_ : Patch) => (r + 1, some "patch failed")) 0
        (.patchExecuteNodes ⟨0⟩ CommandNodes.default ExecuteOptions.default)).sent = []
    ∧ (executeNodesArm (fun (r : Nat) (_ : Patch) => (r + 1, some "patch failed")) 0
        (.patchExecuteNodes ⟨0⟩ CommandNodes.default ExecuteOptions.default)).executionSpawned
        = true :=
  patch_execute_nodes_silent_discard
    (fun (r : Nat) (_ : Patch) => (r + 1, some "patch failed")) 0
    ⟨0⟩ CommandNodes.default ExecuteOptions.default "patch failed" (by rfl)

end Cmd

namespace Kspace

/-- Kernel identifiers (`type KernelId = String` in `src/kernels/mod.rs`). -/
abbrev KernelId := String

/-- A value held by a kernel (`stencila_schema::Node`): the kernel space only
moves values between kernels, so the payload is an opaque token. -/
structure Value where
  tag : Nat
deriving DecidableEq, Repr

/-- Association-list lookup with first-match semantics, modelling
`HashMap::get` / `BTreeMap::get` over string keys. -/
def alookup {α : Type} : List (String × α) → String → Option α
  | [], _ => none
  | (k1, v) :: rest, k => if k1 = k then some v else alookup rest k

/-- Association-list insert-or-replace, modelling the `HashMap` entry API
(`Occupied` mutates in place, `Vacant` inserts). -/
def aupdate {α : Type} : List (String × α) → String → α → List (String × α)
  | [], k, v => [(k, v)]
  | (k1, v1) :: rest, k, v =>
    if k1 = k then (k, v) :: rest else (k1, v1) :: aupdate rest k v

lemma alookup_aupdate_self {α : Type} (l : List (String × α)) (k : String) (v : α) :
    alookup (aupdate l k v) k = some v := by
  induction l with
  | nil => simp [aupdate, alookup]
  | cons p rest ih =>
    obtain ⟨k1, v1⟩ := p
    by_cases h : k1 = k
    · simp [aupdate, alookup, h]
    · simp [aupdate, alookup, h, ih]

lemma alookup_aupdate_ne {α : Type} (l : List (String × α)) (k k2 : String) (v : α)
    (h : k2 ≠ k) : alookup (aupdate l k v) k2 = alookup l k2 := by
  have hne : ¬k = k2 := fun hk => h hk.symm
  induction l with
  | nil => simp [aupdate, alookup, hne]
  | cons p rest ih =>
    obtain ⟨k1, v1⟩ := p
    by_cases h1 : k1 = k
    · subst h1
      simp [aupdate, alookup, hne]
    · simp only [aupdate, if_neg h1, alookup]
      by_cases h2 : k1 = k2
      · simp [h2]
      · simp [h2, ih]

/-- Symbol bookkeeping (`SymbolInfo` in `src/kernels/mod.rs`): the kernel the
symbol was last assigned in, the time of that assignment, and per-kernel
mirror timestamps.  `DateTime<Utc>` is modelled as `Nat`. -/
structure SymbolInfo where
  kind : String
  home : KernelId
  assigned : Nat
  mirrored : List (KernelId × Nat)
deriving DecidableEq, Repr

/-- `SymbolInfo::new(kind, kernel_id)`, with `Utc::now()` passed explicitly:
home is the given kernel, `assigned` is now, and `mirrored` starts empty. -/
def SymbolInfo.new (kind : String) (kernelId : KernelId) (now : Nat) : SymbolInfo :=
  { kind := kind, home := kernelId, assigned := now, mirrored := [] }

/-- The store of one kernel, standing for the external kernel adapter behind
`KernelTrait`: `get(name) → Value | UnknownSymbol` and `set(name, value)`
(kernel contract of spec §4.5 / §6). -/
abbrev KernelStore := List (String × Value)

/-- Contract of `kernel.get(name)`: the value, or an `UnknownSymbol` error. -/
def storeGet (store : KernelStore) (name : String) : Except String Value :=
  match alookup store name with
  | some v => Except.ok v
  | none => Except.error "UnknownSymbol"

/-- Contract of `kernel.set(name, value)`. -/
def storeSet (store : KernelStore) (name : String) (value : Value) : KernelStore :=
  aupdate store name value

/-- The kernel space (`KernelSpace` in `src/kernels/mod.rs`): the kernels
keyed by id and the symbol table. -/
structure KernelSpace where
  kernels : List (KernelId × KernelStore)
  symbols : List (String × SymbolInfo)
deriving DecidableEq, Repr

/-- The method `KernelSpace::set(name, value, language)`
(`src/kernels/mod.rs` lines 235-254).  `ensure(language)` picks or starts a
kernel externally (uuid generation, kernel startup), so the returned
`kernel_id` is passed as an argument, as is `Utc::now()`.  The kernel is
looked up (`?` on failure), the value is set in it, and the symbol table
entry is updated through the entry API: when occupied, only `home` and
`assigned` are reassigned; when vacant, `SymbolInfo::new("", kernel_id)` is
inserted. -/
def KernelSpace.set (ks : KernelSpace) (name : String) (value : Value)
    (kernelId : KernelId) (now : Nat) : Except String KernelSpace :=
  match alookup ks.kernels kernelId with
  | none => Except.error "Unknown kernel"
  | some store =>
    let kernels := aupdate ks.kernels kernelId (storeSet store name value)
    let symbols :=
      match alookup ks.symbols name with
      | some info => aupdate ks.symbols name { info with home := kernelId, assigned := now }
      | none => aupdate ks.symbols name (SymbolInfo.new "" kernelId now)
    Except.ok { kernels := kernels, symbols := symbols }

/-- Dependency relations between resources (`graphs::Relation`, payloads
dropped; variants other than `Assign` and `Use` are irrelevant to
`KernelSpace::exec` and collapse into `other`). -/
inductive Relation where
  | assign
  | use
  | other
deriving DecidableEq, Repr

/-- A symbol resource (`graphs::resources::Symbol`): name and kind. -/
structure Symbol where
  name : String
  kind : String
deriving DecidableEq, Repr

/-- Resources (`graphs::Resource`); variants other than `Symbol` collapse
into `other`. -/
inductive Resource where
  | symbol (s : Symbol)
  | other
deriving DecidableEq, Repr

/-- The copy performed when a used symbol must be mirrored
(`src/kernels/mod.rs` lines 311-330): read the value from the home kernel,
set it in the target kernel, and stamp `mirrored[kernel_id] = now` through
the entry API. -/
def mirrorCopy (kernelId : KernelId) (now : Nat) (ks : KernelSpace)
    (name : String) (info : SymbolInfo) : Except String KernelSpace :=
  match alookup ks.kernels info.home with
  | none => Except.error "Unknown kernel"
  | some homeStore =>
    match storeGet homeStore name with
    | Except.error e => Except.error e
    | Except.ok value =>
      match alookup ks.kernels kernelId with
      | none => Except.error "Unknown kernel"
      | some mirrorStore =>
        Except.ok
          { kernels := aupdate ks.kernels kernelId (storeSet mirrorStore name value),
            symbols := aupdate ks.symbols name
              { info with mirrored := aupdate info.mirrored kernelId now } }

/-- One iteration of the mirroring loop of `KernelSpace::exec`
(`src/kernels/mod.rs` lines 270-330): only `(Use, Symbol)` relations are
considered; a name with no symbol-table entry is skipped (`has_element`
fails and the loop continues); the copy is skipped when the home already is
the target kernel, or when `mirrored[kernel_id] >= assigned`. -/
def mirrorUsedSymbol (kernelId : KernelId) (now : Nat) (ks : KernelSpace)
    (relation : Relation × Resource) : Except String KernelSpace :=
  match relation with
  | (.use, .symbol symbol) =>
    match alookup ks.symbols symbol.name with
    | none => Except.ok ks
    | some info =>
      if info.home = kernelId then Except.ok ks
      else
        match alookup info.mirrored kernelId with
        | some m =>
          if info.assigned ≤ m then Except.ok ks
          else mirrorCopy kernelId now ks symbol.name info
        | none => mirrorCopy kernelId now ks symbol.name info
  | _ => Except.ok ks

/-- The skip test `mirrored >= assigned` of the source, as a predicate on
the symbol entry: the symbol has already been mirrored to the kernel since
its last assignment. -/
def mirroredSinceAssigned (info : SymbolInfo) (kernelId : KernelId) : Bool :=
  match alookup info.mirrored kernelId with
  | some m => info.assigned ≤ m
  | none => false

/-- Post-execution bookkeeping of `KernelSpace::exec`
(`src/kernels/mod.rs` lines 336-355): each `(Assign, Symbol)` relation moves
the symbol home to the executing kernel with a fresh `assigned` time, or
inserts a new entry. -/
def recordAssigned (kernelId : KernelId) (now : Nat)
    (symbols : List (String × SymbolInfo)) (relation : Relation × Resource) :
    List (String × SymbolInfo) :=
  match relation with
  | (.assign, .symbol symbol) =>
    match alookup symbols symbol.name with
    | some info => aupdate symbols symbol.name { info with home := kernelId, assigned := now }
    | none => aupdate symbols symbol.name (SymbolInfo.new symbol.kind kernelId now)
  | _ => symbols

/-- The mirroring loop of `KernelSpace::exec` over the whole relations list,
propagating the first error (the `?` operators of the loop body). -/
def mirrorAll (kernelId : KernelId) (now : Nat) :
    KernelSpace → List (Relation × Resource) → Except String KernelSpace
  | ks, [] => Except.ok ks
  | ks, rel :: rest =>
    match mirrorUsedSymbol kernelId now ks rel with
    | Except.ok ks2 => mirrorAll kernelId now ks2 rest
    | Except.error e => Except.error e

/-- The method `KernelSpace::exec(code, language, relations)`
(`src/kernels/mod.rs` lines 259-357): mirror every used symbol into the
target kernel, execute the code there (`kernelExec` stands for the external
`kernel.exec` adapter, returning the updated store and the output values),
then record assigned symbols.  As in `set`, the `ensure(language)` result
and `Utc::now()` are explicit arguments. -/
def KernelSpace.exec (ks : KernelSpace) (code : String) (kernelId : KernelId) (now : Nat)
    (kernelExec : KernelStore → String → Except String (KernelStore × List Value))
    (relations : Option (List (Relation × Resource))) :
    Except String (KernelSpace × List Value) := do
  let ks ←
    match relations with
    | some rels => mirrorAll kernelId now ks rels
    | none => pure ks
  match alookup ks.kernels kernelId with
  | none => Except.error "Unknown kernel"
  | some store => do
    let (store2, nodes) ← kernelExec store code
    let kernels := aupdate ks.kernels kernelId store2
    let symbols :=
      match relations with
      | some rels => rels.foldl (recordAssigned kernelId now) ks.symbols
      | none => ks.symbols
    Except.ok ({ kernels := kernels, symbols := symbols }, nodes)

end Kspace

namespace Kspace

/-- Effect of a successful mirror copy on the symbol table and target
kernel. -/
lemma mirrorCopy_ok (kernelId : KernelId) (now : Nat) (ks : KernelSpace)
    (name : String) (info : SymbolInfo) (ks2 : KernelSpace)
    (h : mirrorCopy kernelId now ks name info = Except.ok ks2) :
    ks2.symbols = aupdate ks.symbols name
      { info with mirrored := aupdate info.mirrored kernelId now } := by
  unfold mirrorCopy at h
  cases h1 : alookup ks.kernels info.home with
  | none =>
    simp only [h1] at h
    exact Except.noConfusion h
  | some homeStore =>
    simp only [h1] at h
    cases h2 : storeGet homeStore name with
    | error e =>
      simp only [h2] at h
      exact Except.noConfusion h
    | ok value =>
      simp only [h2] at h
      cases h3 : alookup ks.kernels kernelId with
      | none =>
        simp only [h3] at h
        exact Except.noConfusion h
      | some mirrorStore =>
        simp only [h3, Except.ok.injEq] at h
        rw [← h]

/-- C4: behaviour of `KernelSpace::exec` for a `(Use, Symbol(s))` relation
whose name has a symbol-table entry.  (1) When the home already is the
target kernel nothing happens; (2) when the symbol was already mirrored to
the target since its last assignment nothing happens; (3) otherwise the
value is copied from the home kernel into the target kernel and
`mirrored[target]` is stamped with the current time; and (4) consequently,
whenever the relation is processed successfully for a symbol homed in a
different kernel, the resulting table has `mirrored[target] ≥ assigned`
before the code executes. -/
theorem kernel_exec_use_mirroring (kernelId : KernelId) (now : Nat) (ks : KernelSpace)
    (sym : Symbol) (info : SymbolInfo)
    (hs : alookup ks.symbols sym.name = some info) :
    (info.home = kernelId →
      mirrorUsedSymbol kernelId now ks (Relation.use, Resource.symbol sym) = Except.ok ks)
    ∧ (info.home ≠ kernelId → mirroredSinceAssigned info kernelId = true →
      mirrorUsedSymbol kernelId now ks (Relation.use, Resource.symbol sym) = Except.ok ks)
    ∧ (∀ homeStore value mirrorStore,
        info.home ≠ kernelId → mirroredSinceAssigned info kernelId = false →
        alookup ks.kernels info.home = some homeStore →
        storeGet homeStore sym.name = Except.ok value →
        alookup ks.kernels kernelId = some mirrorStore →
        mirrorUsedSymbol kernelId now ks (Relation.use, Resource.symbol sym)
          = Except.ok
              { kernels := aupdate ks.kernels kernelId (storeSet mirrorStore sym.name value),
                symbols := aupdate ks.symbols sym.name
                  { info with mirrored := aupdate info.mirrored kernelId now } })
    ∧ (∀ ks2, info.home ≠ kernelId → info.assigned ≤ now →
        mirrorUsedSymbol kernelId now ks (Relation.use, Resource.symbol sym) = Except.ok ks2 →
        ∃ info2 t, alookup ks2.symbols sym.name = some info2
          ∧ alookup info2.mirrored kernelId = some t ∧ info.assigned ≤ t) := by
  refine ⟨?_, ?_, ?_, ?_⟩
  · intro h
    simp [mirrorUsedSymbol, hs, h]
  · intro hne hm
    unfold mirroredSinceAssigned at hm
    cases hmk : alookup info.mirrored kernelId with
    | none =>
      simp only [hmk] at hm
      exact Bool.noConfusion hm
    | some m =>
      simp only [hmk, decide_eq_true_eq] at hm
      simp [mirrorUsedSymbol, hs, hne, hmk, hm]
  · intro homeStore value mirrorStore hne hm hhome hget hmirror
    unfold mirroredSinceAssigned at hm
    cases hmk : alookup info.mirrored kernelId with
    | none =>
      simp [mirrorUsedSymbol, hs, hne, hmk, mirrorCopy, hhome, hget, hmirror]
    | some m =>
      simp only [hmk, decide_eq_false_iff_not] at hm
      simp [mirrorUsedSymbol, hs, hne, hmk, hm, mirrorCopy, hhome, hget, hmirror]
  · intro ks2 hne hle hrun
    simp only [mirrorUsedSymbol, hs, if_neg hne] at hrun
    cases hmk : alookup info.mirrored kernelId with
    | none =>
      simp only [hmk] at hrun
      have hsym := mirrorCopy_ok kernelId now ks sym.name info ks2 hrun
      refine ⟨{ info with mirrored := aupdate info.mirrored kernelId now }, now, ?_, ?_, hle⟩
      · rw [hsym]; exact alookup_aupdate_self _ _ _
      · exact alookup_aupdate_self _ _ _
    | some m =>
      simp only [hmk] at hrun
      by_cases hm : info.assigned ≤ m
      · rw [if_pos hm] at hrun
        simp only [Except.ok.injEq] at hrun
        subst hrun
        exact ⟨info, m, hs, hmk, hm⟩
      · rw [if_neg hm] at hrun
        have hsym := mirrorCopy_ok kernelId now ks sym.name info ks2 hrun
        refine ⟨{ info with mirrored := aupdate info.mirrored kernelId now }, now, ?_, ?_, hle⟩
        · rw [hsym]; exact alookup_aupdate_self _ _ _
        · exact alookup_aupdate_self _ _ _

end Kspace

namespace Kspace

/-- Symbol-table entry used by the C3 scenario: a symbol homed in `k1`,
assigned at time 3, already mirrored into `k2` at time 5. -/
def setInfoBefore : SymbolInfo :=
  { kind := "Number", home := "k1", assigned := 3, mirrored := [("k2", 5)] }

/-- The same entry after `set("x", 7, k2)` at time 9: home and assigned are
reassigned, the mirror timestamps are untouched. -/
def setInfoAfter : SymbolInfo :=
  { kind := "Number", home := "k2", assigned := 9, mirrored := [("k2", 5)] }

/-- Kernel space for the C3 scenario. -/
def setKs : KernelSpace :=
  { kernels := [("k2", [])], symbols := [("x", setInfoBefore)] }

/-- The C3 scenario after the call. -/
def setKsAfter : KernelSpace :=
  { kernels := [("k2", [("x", (⟨7⟩ : Value))])], symbols := [("x", setInfoAfter)] }

/-- Counterexample to C3: `KernelSpace::set` updates `home` and `assigned`
of an existing symbol entry but does not clear the `mirrored` map — the old
mirror timestamp for `k2` survives the call. -/
theorem kernel_set_counterexample :
    KernelSpace.set setKs "x" ⟨7⟩ "k2" 9 = Except.ok setKsAfter
    ∧ alookup setKsAfter.symbols "x" = some setInfoAfter
    ∧ setInfoAfter.mirrored ≠ [] :=
  ⟨by rfl, by rfl, by simp [setInfoAfter]⟩

/-- C3 as amended: `set(name, value, kernel_id, now)` on an ensured kernel
sets the value in that kernel and rewrites the existing symbol entry with
`home := kernel_id` and `assigned := now`, leaving `mirrored` (and `kind`)
unchanged rather than emptying the mirror map; the old mirror timestamps are
all older than the new `assigned`, so they count as stale rather than being
removed. -/
theorem kernel_set_amended (ks : KernelSpace) (name : String) (value : Value)
    (kernelId : KernelId) (now : Nat) (store : KernelStore) (info : SymbolInfo)
    (hk : alookup ks.kernels kernelId = some store)
    (hs : alookup ks.symbols name = some info) :
    KernelSpace.set ks name value kernelId now
      = Except.ok
          { kernels := aupdate ks.kernels kernelId (storeSet store name value),
            symbols := aupdate ks.symbols name
              { info with home := kernelId, assigned := now } }
    ∧ alookup (aupdate ks.symbols name { info with home := kernelId, assigned := now }) name
        = some { info with home := kernelId, assigned := now }
    ∧ ({ info with home := kernelId, assigned := now } : SymbolInfo).mirrored = info.mirrored
    ∧ ({ info with home := kernelId, assigned := now } : SymbolInfo).kind = info.kind := by
  refine ⟨?_, alookup_aupdate_self _ _ _, rfl, rfl⟩
  simp [KernelSpace.set, hk, hs]

/-- Witness for the amended C3 on the concrete scenario. -/
theorem kernel_set_amended_witness :
    KernelSpace.set setKs "x" ⟨7⟩ "k2" 9 = Except.ok setKsAfter :=
  (kernel_set_amended setKs "x" ⟨7⟩ "k2" 9 [] setInfoBefore (by rfl) (by rfl)).1

/-- Kernel space for the C4 witness, scenario S2 of the specification:
`x = 2` assigned in the `py` kernel at time 3, never mirrored; the `r`
kernel is empty. -/
def mirrorKs : KernelSpace :=
  { kernels := [("py", [("x", (⟨2⟩ : Value))]), ("r", [])],
    symbols := [("x", { kind := "Number", home := "py", assigned := 3, mirrored := [] })] }

/-- The C4 scenario after mirroring `x` into `r` at time 5. -/
def mirrorKsAfter : KernelSpace :=
  { kernels := [("py", [("x", (⟨2⟩ : Value))]), ("r", [("x", (⟨2⟩ : Value))])],
    symbols := [("x", { kind := "Number", home := "py", assigned := 3,
                        mirrored := [("r", 5)] })] }

/-- Witness for C4 on scenario S2: executing in `r` with a
`(Use, Symbol(x))` relation copies `x` from `py` into `r` and stamps
`mirrored[r] = 5 ≥ assigned = 3`. -/
theorem kernel_exec_use_mirroring_witness :
    mirrorUsedSymbol "r" 5 mirrorKs (Relation.use, Resource.symbol ⟨"x", "Number"⟩)
      = Except.ok mirrorKsAfter :=
  (kernel_exec_use_mirroring "r" 5 mirrorKs ⟨"x", "Number"⟩
      { kind := "Number", home := "py", assigned := 3, mirrored := [] } (by rfl)).2.2.1
    [("x", (⟨2⟩ : Value))] ⟨2⟩ [] (by decide) (by rfl) (by rfl) (by rfl) (by rfl)

/-- C10: a `(Use, Symbol)` relation whose name has no symbol-table entry is
skipped by the mirroring phase of `KernelSpace::exec`: no error, no copy,
and the kernel space — symbol table included — is returned unchanged; a
whole relations list of such symbols leaves the mirroring loop with the
unchanged space. -/
theorem kernel_exec_unknown_use_symbol (kernelId : KernelId) (now : Nat)
    (ks : KernelSpace) (sym : Symbol) (hs : alookup ks.symbols sym.name = none) :
    mirrorUsedSymbol kernelId now ks (Relation.use, Resource.symbol sym) = Except.ok ks
    ∧ ∀ (rels : List (Relation × Resource)),
        (∀ s, (Relation.use, Resource.symbol s) ∈ rels → alookup ks.symbols s.name = none) →
        mirrorAll kernelId now ks rels = Except.ok ks := by
  constructor
  · simp [mirrorUsedSymbol, hs]
  · intro rels
    induction rels with
    | nil => intro _; rfl
    | cons rel rest ih =>
      intro hall
      have hstep : mirrorUsedSymbol kernelId now ks rel = Except.ok ks := by
        rcases rel with ⟨r, res⟩
        cases r with
        | use =>
          cases res with
          | symbol s =>
            have hn := hall s (by simp)
            simp [mirrorUsedSymbol, hn]
          | other => simp [mirrorUsedSymbol]
        | assign => simp [mirrorUsedSymbol]
        | other => simp [mirrorUsedSymbol]
      have htail := ih (fun s hsm => hall s (List.mem_cons_of_mem _ hsm))
      simp [mirrorAll, hstep, htail]

/-- Kernel space for the C10 witness: one kernel, empty symbol table. -/
def unknownKs : KernelSpace := { kernels := [("py", [])], symbols := [] }

/-- Witness for C10: a used symbol `y` with no table entry is skipped and
the loop over the whole relations list succeeds with the space unchanged. -/
theorem kernel_exec_unknown_use_symbol_witness :
    mirrorUsedSymbol "py" 1 unknownKs (Relation.use, Resource.symbol ⟨"y", ""⟩)
        = Except.ok unknownKs
    ∧ mirrorAll "py" 1 unknownKs
        [(Relation.use, Resource.symbol ⟨"y", ""⟩), (Relation.other, Resource.other)]
        = Except.ok unknownKs :=
  have h := kernel_exec_unknown_use_symbol "py" 1 unknownKs ⟨"y", ""⟩ (by rfl)
  ⟨h.1, h.2 [(Relation.use, Resource.symbol ⟨"y", ""⟩), (Relation.other, Resource.other)]
    (fun _ _ => rfl)⟩

end Kspace

namespace Runner

/-- A resource key identifying a node of the plan (`graph_triples::Resource`
reduced to its identity; node ids are taken equal to the resource key). -/
abbrev Resource := String

/-- Execution status of a node (`CodeExecutableExecuteStatus`). -/
inductive ExecStatus where
  | scheduled
  | scheduledPreviouslyFailed
  | running
  | runningPreviouslyFailed
  | succeeded
  | failed
  | cancelled
deriving DecidableEq, Repr

/-- Node kinds the runner distinguishes: the status-mutating closures only
touch `CodeChunk` and `CodeExpression`, `get_execute_status` special-cases
`Parameter`, every other kind reads as `None`. -/
inductive NodeKind where
  | codeChunk
  | codeExpression
  | parameter
  | other
deriving DecidableEq, Repr

/-- The fields of a plan node that the runner reads or writes. -/
structure PlanNode where
  kind : NodeKind
  execute_status : Option ExecStatus
deriving DecidableEq, Repr

/-- Whether the node is a `CodeChunk` or `CodeExpression` (the two patterns
of the status-mutating closures in `node-execute/src/execute.rs`). -/
def isChunkOrExpr : NodeKind → Bool
  | .codeChunk => true
  | .codeExpression => true
  | _ => false

/-- Per-step resource information (`ResourceInfo`, reduced to the fields the
runner reads: the resource and its `Option<Vec<Resource>>` of
dependencies). -/
structure ResourceInfo where
  resource : Resource
  dependencies : Option (List Resource)
deriving DecidableEq, Repr

/-- One step of a stage (`graph::plan::Step`, reduced to its resource info;
`kernel_name` and `is_fork` only parameterise the kernel task). -/
structure Step where
  resource_info : ResourceInfo
deriving DecidableEq, Repr

/-- One stage: steps that may run concurrently. -/
structure Stage where
  steps : List Step
deriving DecidableEq, Repr

/-- An execution plan: ordered stages. -/
structure Plan where
  stages : List Stage
deriving DecidableEq, Repr

/-- The runner's per-node snapshot (`NodeInfo` in
`node-execute/src/execute.rs`). -/
structure NodeInfo where
  resource_info : ResourceInfo
  node_id : String
  node : PlanNode
  previous_execute_status : Option ExecStatus
deriving DecidableEq, Repr

/-- `NodeInfo::get_execute_status`: `CodeChunk` / `CodeExpression` read their
status field, `Parameter` is assumed always succeeded, anything else is
`None`. -/
def NodeInfo.getExecuteStatus (ni : NodeInfo) : Option ExecStatus :=
  match ni.node.kind with
  | .codeChunk => ni.node.execute_status
  | .codeExpression => ni.node.execute_status
  | .parameter => some .succeeded
  | .other => none

/-- `NodeInfo::new`: snapshot the node and record its current execution
status as `previous_execute_status`. -/
def NodeInfo.new (resource_info : ResourceInfo) (node_id : String) (node : PlanNode) :
    NodeInfo :=
  let ni : NodeInfo :=
    { resource_info := resource_info, node_id := node_id, node := node,
      previous_execute_status := none }
  { ni with previous_execute_status := ni.getExecuteStatus }

/-- `set_execute_status_scheduled`: `Failed` becomes
`ScheduledPreviouslyFailed`, anything else becomes `Scheduled`; only chunk
and expression nodes are touched. -/
def PlanNode.setScheduled (node : PlanNode) : PlanNode :=
  if isChunkOrExpr node.kind then
    let status :=
      match node.execute_status with
      | some .failed => ExecStatus.scheduledPreviouslyFailed
      | _ => ExecStatus.scheduled
    { node with execute_status := some status }
  else node

/-- `set_execute_status_running`: `Failed` or `ScheduledPreviouslyFailed`
become `RunningPreviouslyFailed`, anything else becomes `Running`. -/
def PlanNode.setRunning (node : PlanNode) : PlanNode :=
  if isChunkOrExpr node.kind then
    let status :=
      match node.execute_status with
      | some .failed => ExecStatus.runningPreviouslyFailed
      | some .scheduledPreviouslyFailed => ExecStatus.runningPreviouslyFailed
      | _ => ExecStatus.running
    { node with execute_status := some status }
  else node

/-- `restore_previous_execute_status`: a node still in a `Scheduled*` or
`Running*` state gets its previous status back; any other state is kept. -/
def PlanNode.restorePrevious (node : PlanNode) (previous : Option ExecStatus) : PlanNode :=
  if isChunkOrExpr node.kind then
    match node.execute_status with
    | some .scheduled => { node with execute_status := previous }
    | some .scheduledPreviouslyFailed => { node with execute_status := previous }
    | some .running => { node with execute_status := previous }
    | some .runningPreviouslyFailed => { node with execute_status := previous }
    | _ => node
  else node

def NodeInfo.setExecuteStatusScheduled (ni : NodeInfo) : NodeInfo :=
  { ni with node := ni.node.setScheduled }

def NodeInfo.setExecuteStatusRunning (ni : NodeInfo) : NodeInfo :=
  { ni with node := ni.node.setRunning }

def NodeInfo.restorePreviousExecuteStatus (ni : NodeInfo) : NodeInfo :=
  { ni with node := ni.node.restorePrevious ni.previous_execute_status }

/-- The status test of the per-stage dependency check
(`node-execute/src/execute.rs` lines 127-131): `None`, `Failed` and
`Cancelled` block the stage. -/
def statusBlocksStage : Option ExecStatus → Bool
  | none => true
  | some .failed => true
  | some .cancelled => true
  | _ => false

/-- The per-stage dependency check (`execute.rs` lines 112-132): over all
dependencies of all steps of the stage, resolved through the `node_infos`
snapshot — a dependency with no snapshot entry (in particular any
dependency outside the plan) is dropped by the `filter_map` and never
blocks.  The `BTreeSet` in the source only deduplicates and cannot change
the result of `any`. -/
def dependenciesFailedFor (nodeInfos : List (Resource × NodeInfo)) (stage : Stage) : Bool :=
  (stage.steps.flatMap (fun step => step.resource_info.dependencies.getD [])).any
    (fun dep =>
      match Kspace.alookup nodeInfos dep with
      | some ni => statusBlocksStage ni.getExecuteStatus
      | none => false)

/-- Runner state threaded through the stages: the live snapshot map, the
resources whose step was dispatched (set running and sent to a kernel task),
and the `dependencies_failed` flag. -/
structure RunState where
  nodeInfos : List (Resource × NodeInfo)
  dispatched : List Resource
  dependenciesFailed : Bool
deriving DecidableEq, Repr

/-- One step of a stage (`execute.rs` lines 154-319, sequentialised): the
snapshot entry is cloned, set running, dispatched to a kernel task
(`runNode`, the external execution of the node, `None` standing for a task
that returned `Err` and is only logged), and on completion the snapshot
entry is replaced by the executed node.  Cancellation is not modelled: the
cancellation channel was drained at entry and the claims under proof involve
no cancel requests, so the `cancelled` set stays empty.  A step whose
resource has no snapshot entry panics in the source (`.expect`); here it
leaves the state unchanged. -/
def runStep (runNode : Resource → PlanNode → Option PlanNode)
    (st : RunState) (step : Step) : RunState :=
  match Kspace.alookup st.nodeInfos step.resource_info.resource with
  | none => st
  | some ni =>
    let ni2 := ni.setExecuteStatusRunning
    let dispatched := st.dispatched ++ [step.resource_info.resource]
    match runNode step.resource_info.resource ni2.node with
    | some executed =>
        { st with
          nodeInfos := Kspace.aupdate st.nodeInfos step.resource_info.resource
            { ni2 with node := executed },
          dispatched := dispatched }
    | none => { st with dispatched := dispatched }

/-- The stage loop (`execute.rs` lines 108-323): before a stage its
dependency check runs; on failure the flag is raised and the loop breaks
(remaining stages are never reached), otherwise every step of the stage
runs. -/
def runStages (runNode : Resource → PlanNode → Option PlanNode) :
    RunState → List Stage → RunState
  | st, [] => st
  | st, stage :: rest =>
    if dependenciesFailedFor st.nodeInfos stage then
      { st with dependenciesFailed := true }
    else
      runStages runNode (stage.steps.foldl (runStep runNode) st) rest

/-- The snapshot built at the start of `execute` (`execute.rs` lines 70-88):
one `NodeInfo` per step whose resource resolves in the root tree
(`resource_to_node`); unresolvable resources are logged and skipped. -/
def buildNodeInfos (root : List (Resource × PlanNode)) (plan : Plan) :
    List (Resource × NodeInfo) :=
  (plan.stages.flatMap (fun stage => stage.steps)).filterMap (fun step =>
    match Kspace.alookup root step.resource_info.resource with
    | some node =>
        some (step.resource_info.resource,
          NodeInfo.new step.resource_info step.resource_info.resource node)
    | none => none)

/-- Runner state on entry to the stage loop: the snapshot map with every
node set `Scheduled` (or `ScheduledPreviouslyFailed`), nothing dispatched,
flag down. -/
def initState (root : List (Resource × PlanNode)) (plan : Plan) : RunState :=
  { nodeInfos := (buildNodeInfos root plan).map
      (fun p => (p.1, p.2.setExecuteStatusScheduled)),
    dispatched := [],
    dependenciesFailed := false }

/-- Restoration of one snapshot entry, as mapped over `node_infos` by the
post-run block. -/
def restoreEntry (p : Resource × NodeInfo) : Resource × NodeInfo :=
  (p.1, p.2.restorePreviousExecuteStatus)

/-- The post-run restoration (`execute.rs` lines 327-335): map
`restore_previous_execute_status` over the whole snapshot. -/
def restoreAll (st : RunState) : RunState :=
  { st with nodeInfos := st.nodeInfos.map restoreEntry }

/-- The whole `execute` run continued: stages, then conditional
restoration. -/
def runPlan (runNode : Resource → PlanNode → Option PlanNode)
    (root : List (Resource × PlanNode)) (plan : Plan) : RunState :=
  let st := runStages runNode (initState root plan) plan.stages
  if st.dependenciesFailed then restoreAll st
  else st

end Runner

namespace Runner

/-- The `Scheduled*` / `Running*` states targeted by the restoration. -/
def statusScheduledOrRunning : Option ExecStatus → Bool
  | some .scheduled => true
  | some .scheduledPreviouslyFailed => true
  | some .running => true
  | some .runningPreviouslyFailed => true
  | _ => false

lemma runStep_flag (runNode : Resource → PlanNode → Option PlanNode)
    (st : RunState) (step : Step) :
    (runStep runNode st step).dependenciesFailed = st.dependenciesFailed := by
  unfold runStep
  split
  · rfl
  · dsimp only
    split <;> rfl

lemma foldl_runStep_flag (runNode : Resource → PlanNode → Option PlanNode) :
    ∀ (steps : List Step) (st : RunState),
      (steps.foldl (runStep runNode) st).dependenciesFailed = st.dependenciesFailed := by
  intro steps
  induction steps with
  | nil => intro st; rfl
  | cons step rest ih =>
    intro st
    rw [List.foldl_cons, ih, runStep_flag]

/-- When no dependency check fires in the prefix, the stage loop splits at
the append. -/
lemma runStages_append (runNode : Resource → PlanNode → Option PlanNode) :
    ∀ (pre rest : List Stage) (st : RunState),
      (runStages runNode st pre).dependenciesFailed = false →
      runStages runNode st (pre ++ rest)
        = runStages runNode (runStages runNode st pre) rest := by
  intro pre
  induction pre with
  | nil => intro rest st _; rfl
  | cons stage pre2 ih =>
    intro rest st hflag
    by_cases hc : dependenciesFailedFor st.nodeInfos stage = true
    · exfalso
      have htrue : (runStages runNode st (stage :: pre2)).dependenciesFailed = true := by
        simp [runStages, hc]
      rw [hflag] at htrue
      exact Bool.noConfusion htrue
    · have hstep : runStages runNode st (stage :: pre2)
          = runStages runNode (stage.steps.foldl (runStep runNode) st) pre2 := by
        simp [runStages, hc]
      rw [List.cons_append]
      have hstep2 : runStages runNode st (stage :: (pre2 ++ rest))
          = runStages runNode (stage.steps.foldl (runStep runNode) st) (pre2 ++ rest) := by
        simp [runStages, hc]
      rw [hstep2, hstep]
      refine ih rest _ ?_
      rw [← hstep]
      exact hflag

lemma restorePrevious_of_scheduledOrRunning (node : PlanNode)
    (previous : Option ExecStatus)
    (hk : isChunkOrExpr node.kind = true)
    (hs : statusScheduledOrRunning node.execute_status = true) :
    (node.restorePrevious previous).execute_status = previous := by
  rcases hst : node.execute_status with - | st
  · rw [hst] at hs
    exact Bool.noConfusion hs
  · cases st <;> rw [hst] at hs <;>
      simp_all [PlanNode.restorePrevious, statusScheduledOrRunning]

end Runner

namespace Runner

/-- C5 as amended: when the stage loop runs clean up to some stage whose
dependency check fires — the check consulting only dependencies that resolve
in the plan snapshot — then (1) the whole run equals the state before that
stage with the `dependencies_failed` flag raised, so (2) no step of that
stage or of any later stage is dispatched, (3) the run ends in the
restoration pass, and (4) restoration returns every snapshot node still in a
`Scheduled*` / `Running*` state to its status from before the run. -/
theorem runner_dependency_failure (runNode : Resource → PlanNode → Option PlanNode)
    (root : List (Resource × PlanNode)) (plan : Plan)
    (pre : List Stage) (failStage : Stage) (rest : List Stage)
    (hdecomp : plan.stages = pre ++ failStage :: rest)
    (hpre : (runStages runNode (initState root plan) pre).dependenciesFailed = false)
    (hfire : dependenciesFailedFor
        (runStages runNode (initState root plan) pre).nodeInfos failStage = true) :
    runStages runNode (initState root plan) plan.stages
      = { runStages runNode (initState root plan) pre with dependenciesFailed := true }
    ∧ (runStages runNode (initState root plan) plan.stages).dispatched
        = (runStages runNode (initState root plan) pre).dispatched
    ∧ runPlan runNode root plan
        = restoreAll (runStages runNode (initState root plan) plan.stages)
    ∧ (∀ p ∈ (runStages runNode (initState root plan) plan.stages).nodeInfos,
        isChunkOrExpr p.2.node.kind = true →
        statusScheduledOrRunning p.2.node.execute_status = true →
        (restoreEntry p).2.node.execute_status = p.2.previous_execute_status) := by
  have hstages : runStages runNode (initState root plan) plan.stages
      = { runStages runNode (initState root plan) pre with dependenciesFailed := true } := by
    rw [hdecomp, runStages_append runNode pre (failStage :: rest) (initState root plan) hpre]
    simp [runStages, hfire]
  refine ⟨hstages, by rw [hstages], ?_, ?_⟩
  · unfold runPlan
    rw [hstages]
    simp
  · intro p _ hk hs
    exact restorePrevious_of_scheduledOrRunning p.2.node p.2.previous_execute_status hk hs

/-- Root tree for the C5 counterexample: an out-of-plan node `D` with status
`Failed` and an in-plan node `S` that depends on it. -/
def outsideRoot : List (Resource × PlanNode) :=
  [("D", { kind := .codeChunk, execute_status := some .failed }),
   ("S", { kind := .codeChunk, execute_status := none })]

/-- The single step of the C5 counterexample plan: node `S`, whose only
dependency is the out-of-plan node `D`. -/
def outsideStep : Step :=
  { resource_info := { resource := "S", dependencies := some ["D"] } }

/-- The C5 counterexample plan: one stage, one step, `D` not in the plan. -/
def outsidePlan : Plan := { stages := [{ steps := [outsideStep] }] }

/-- A kernel task oracle that always succeeds. -/
def succeedRun : Resource → PlanNode → Option PlanNode :=
  fun _ node => some { node with execute_status := some .succeeded }

/-- Counterexample to C5: the dependency `D` of the only step has execute
status `Failed` in the tree, yet — because `D` is not itself a node of the
plan and the check resolves dependencies only through the plan snapshot —
the stage is not stopped: its step for `S` is dispatched and the
`dependencies_failed` flag stays down. -/
theorem runner_outside_dependency_counterexample :
    Kspace.alookup outsideRoot "D"
        = some { kind := NodeKind.codeChunk, execute_status := some ExecStatus.failed }
    ∧ "D" ∈ outsideStep.resource_info.dependencies.getD []
    ∧ (runPlan succeedRun outsideRoot outsidePlan).dispatched = ["S"]
    ∧ (runPlan succeedRun outsideRoot outsidePlan).dependenciesFailed = false := by
  refine ⟨by rfl, by simp [outsideStep], by rfl, by rfl⟩

/-- Root tree for the C5 witness: two code chunks. -/
def wRoot : List (Resource × PlanNode) :=
  [("A", { kind := .codeChunk, execute_status := none }),
   ("B", { kind := .codeChunk, execute_status := none })]

/-- Stage-0 step of the C5 witness: node `A`, no dependencies. -/
def wStepA : Step := { resource_info := { resource := "A", dependencies := none } }

/-- Stage-1 step of the C5 witness: node `B`, depending on `A`. -/
def wStepB : Step := { resource_info := { resource := "B", dependencies := some ["A"] } }

/-- The C5 witness plan: `A` in stage 0, `B` in stage 1. -/
def wPlan : Plan := { stages := [{ steps := [wStepA] }, { steps := [wStepB] }] }

/-- A kernel task oracle that always fails the node. -/
def failRun : Resource → PlanNode → Option PlanNode :=
  fun _ node => some { node with execute_status := some .failed }

/-- Witness for the amended C5: `A` fails in stage 0, so the stage-1 check
fires and the step for `B` is never dispatched — the dispatched list of the
whole run equals that of stage 0 alone. -/
theorem runner_dependency_failure_witness :
    (runStages failRun (initState wRoot wPlan) wPlan.stages).dispatched
      = (runStages failRun (initState wRoot wPlan) [Stage.mk [wStepA]]).dispatched :=
  (runner_dependency_failure failRun wRoot wPlan [Stage.mk [wStepA]] (Stage.mk [wStepB]) []
    (by rfl) (by rfl) (by rfl)).2.1

end Runner

namespace DomSync

/-- Tags of the segments produced by the external Myers diff
(`similar::DiffTag`). -/
inductive DiffTag where
  | equal
  | delete
  | insert
  | replace
deriving DecidableEq, Repr

/-- One diff segment (`similar::DiffOp` as consumed through `tag()`,
`old_range()` and `new_range()`): half-open index ranges into the old and
new buffers. -/
structure DiffOp where
  tag : DiffTag
  oldStart : Nat
  oldLen : Nat
  newStart : Nat
  newLen : Nat
deriving DecidableEq, Repr

/-- The slice `buf[start .. start + len]`, as in `new_utf16[op.new_range()]`. -/
def slice {α : Type} (l : List α) (start len : Nat) : List α :=
  (l.drop start).take len

/-- A DOM string operation (`DomOperation` in `document/src/sync_dom.rs`),
over buffers of UTF-16 code units modelled as lists of naturals. -/
inductive DomOperation where
  | reset (content : List Nat)
  | insert (frm : Nat) (content : List Nat)
  | delete (frm toPos : Nat)
  | replace (frm toPos : Nat) (content : List Nat)
deriving DecidableEq, Repr

/-- The lossy UTF-16 decode-and-reencode performed by
`String::from_utf16_lossy` on each emitted slice, viewed at the level of
UTF-16 code units: well-formed units and surrogate pairs pass through, and
every unpaired surrogate — a high surrogate (`0xD800..=0xDBFF`) not followed
by a low surrogate (`0xDC00..=0xDFFF`), or a lone low surrogate — is
replaced by the replacement character `U+FFFD` (one BMP unit).  After a
lone high surrogate, decoding continues with the unit that followed it. -/
def utf16Lossy : List Nat → List Nat
  | [] => []
  | u :: rest =>
    if 0xD800 ≤ u ∧ u ≤ 0xDBFF then
      match rest with
      | [] => [0xFFFD]
      | v :: rest2 =>
        if 0xDC00 ≤ v ∧ v ≤ 0xDFFF then u :: v :: utf16Lossy rest2
        else 0xFFFD :: utf16Lossy (v :: rest2)
    else if 0xDC00 ≤ u ∧ u ≤ 0xDFFF then 0xFFFD :: utf16Lossy rest
    else u :: utf16Lossy rest

/-- The diff walk of `Document::sync_dom` (`document/src/sync_dom.rs` lines
210-231): `from` starts at `0`; each `Insert` emits
`insert_content(from, String::from_utf16_lossy(&new_utf16[new_range]))`,
each `Delete` emits `delete_content(from, from + old_range.len())`, each
`Replace` emits `replace_content(from, from + old_range.len(),
String::from_utf16_lossy(&new_utf16[new_range]))`, `Equal` emits nothing;
after every segment `from` advances by `new_range.len()`.  The
`from_utf16_lossy` conversion of the emitted slices is `utf16Lossy`. -/
def diffToOps (newBuf : List Nat) : List DiffOp → Nat → List DomOperation
  | [], _ => []
  | op :: rest, frm =>
    let emitted : List DomOperation :=
      match op.tag with
      | .insert => [DomOperation.insert frm (utf16Lossy (slice newBuf op.newStart op.newLen))]
      | .delete => [DomOperation.delete frm (frm + op.oldLen)]
      | .replace =>
          [DomOperation.replace frm (frm + op.oldLen)
            (utf16Lossy (slice newBuf op.newStart op.newLen))]
      | .equal => []
    emitted ++ diffToOps newBuf rest (frm + op.newLen)

/-- Application of one DOM operation on the receiving side, positions being
UTF-16 offsets into the post-patch buffer (§6): `insert` splices content in
at `from`, `delete` removes `[from, to)`, `replace` substitutes content for
`[from, to)`, `reset` replaces the whole buffer. -/
def applyOp (buf : List Nat) : DomOperation → List Nat
  | .reset content => content
  | .insert frm content => buf.take frm ++ content ++ buf.drop frm
  | .delete frm toPos => buf.take frm ++ buf.drop toPos
  | .replace frm toPos content => buf.take frm ++ content ++ buf.drop toPos

/-- Application of a whole operation list, in order. -/
def applyOps (buf : List Nat) (ops : List DomOperation) : List Nat :=
  ops.foldl applyOp buf

/-- Contract of the external `similar::capture_diff_slices_deadline` (with
or without deadline degradation): the segments tile the old and new buffers
contiguously from positions `o` and `n` to their ends, `Equal` segments have
equal old and new slices of equal length, `Insert` consumes nothing old,
`Delete` produces nothing new. -/
def ValidDiff (oldBuf newBuf : List Nat) : List DiffOp → Nat → Nat → Prop
  | [], o, n => o = oldBuf.length ∧ n = newBuf.length
  | op :: rest, o, n =>
      op.oldStart = o ∧ op.newStart = n
      ∧ (match op.tag with
        | .equal => op.oldLen = op.newLen ∧ slice oldBuf o op.oldLen = slice newBuf n op.newLen
        | .insert => op.oldLen = 0
        | .delete => op.newLen = 0
        | .replace => True)
      ∧ ValidDiff oldBuf newBuf rest (o + op.oldLen) (n + op.newLen)

lemma validDiff_le (oldBuf newBuf : List Nat) :
    ∀ (ops : List DiffOp) (o n : Nat), ValidDiff oldBuf newBuf ops o n →
      o ≤ oldBuf.length ∧ n ≤ newBuf.length := by
  intro ops
  induction ops with
  | nil =>
    intro o n h
    exact ⟨le_of_eq h.1, le_of_eq h.2⟩
  | cons op rest ih =>
    intro o n h
    have := ih (o + op.oldLen) (n + op.newLen) h.2.2.2
    omega

end DomSync

namespace DomSync

lemma applyOps_cons (buf : List Nat) (op : DomOperation) (ops : List DomOperation) :
    applyOps buf (op :: ops) = applyOps (applyOp buf op) ops := rfl

lemma take_prefix_append (l1 l2 : List Nat) (n : Nat) (h : l1.length = n) :
    (l1 ++ l2).take n = l1 := by
  subst h
  exact List.take_left l1 l2

lemma drop_prefix_append (l1 l2 : List Nat) (n : Nat) (h : l1.length = n) :
    (l1 ++ l2).drop n = l2 := by
  subst h
  exact List.drop_left l1 l2

lemma drop_prefix_append_add (l1 l2 : List Nat) (n k : Nat) (h : l1.length = n) :
    (l1 ++ l2).drop (n + k) = l2.drop k := by
  subst h
  rw [← List.drop_drop, List.drop_left]

lemma take_slice_append (newBuf : List Nat) (n k : Nat) :
    newBuf.take n ++ slice newBuf n k = newBuf.take (n + k) := by
  rw [List.take_add]
  rfl

lemma drop_slice_append (oldBuf : List Nat) (o k : Nat) :
    oldBuf.drop o = slice oldBuf o k ++ oldBuf.drop (o + k) := by
  unfold slice
  rw [← List.drop_drop, List.take_append_drop]

/-- Invariant of the diff walk: starting from the mixed buffer
`new[0..n] ++ old[o..]`, applying the operations generated for a valid
remainder of the diff — provided every emitted `Insert` / `Replace` slice
survives the lossy UTF-16 round trip unchanged — yields the new buffer. -/
lemma applyOps_diffToOps (oldBuf newBuf : List Nat) :
    ∀ (ops : List DiffOp) (o n : Nat),
      ValidDiff oldBuf newBuf ops o n →
      (∀ op ∈ ops, (op.tag = DiffTag.insert ∨ op.tag = DiffTag.replace) →
        utf16Lossy (slice newBuf op.newStart op.newLen) = slice newBuf op.newStart op.newLen) →
      applyOps (newBuf.take n ++ oldBuf.drop o) (diffToOps newBuf ops n) = newBuf := by
  intro ops
  induction ops with
  | nil =>
    intro o n h _
    obtain ⟨ho, hn⟩ := h
    subst ho
    subst hn
    simp [applyOps, diffToOps]
  | cons op rest ih =>
    intro o n h hloss
    obtain ⟨ho, hn, htag, hrest⟩ := h
    have hlossrest : ∀ op2 ∈ rest, (op2.tag = DiffTag.insert ∨ op2.tag = DiffTag.replace) →
        utf16Lossy (slice newBuf op2.newStart op2.newLen)
          = slice newBuf op2.newStart op2.newLen :=
      fun op2 hmem htag2 => hloss op2 (List.mem_cons_of_mem _ hmem) htag2
    have hbound := validDiff_le oldBuf newBuf rest (o + op.oldLen) (n + op.newLen) hrest
    have htn : (newBuf.take n).length = n := by
      rw [List.length_take]
      omega
    cases hop : op.tag with
    | equal =>
      rw [hop] at htag
      obtain ⟨hlen, hslice⟩ := htag
      have hbuf : newBuf.take n ++ oldBuf.drop o
          = newBuf.take (n + op.newLen) ++ oldBuf.drop (o + op.oldLen) := by
        rw [drop_slice_append oldBuf o op.oldLen, hslice, ← List.append_assoc,
          take_slice_append]
      simp only [diffToOps, hop, List.nil_append]
      rw [hbuf]
      exact ih (o + op.oldLen) (n + op.newLen) hrest hlossrest
    | insert =>
      rw [hop] at htag
      have hl := hloss op (List.mem_cons_self op rest) (Or.inl hop)
      simp only [diffToOps, hop, List.singleton_append]
      rw [applyOps_cons, hl]
      have happly : applyOp (newBuf.take n ++ oldBuf.drop o)
            (DomOperation.insert n (slice newBuf op.newStart op.newLen))
          = newBuf.take (n + op.newLen) ++ oldBuf.drop (o + op.oldLen) := by
        simp only [applyOp]
        rw [take_prefix_append _ _ _ htn, drop_prefix_append _ _ _ htn, hn,
          take_slice_append, htag, Nat.add_zero]
      rw [happly]
      exact ih (o + op.oldLen) (n + op.newLen) hrest hlossrest
    | delete =>
      rw [hop] at htag
      simp only [diffToOps, hop, List.singleton_append]
      rw [applyOps_cons]
      have happly : applyOp (newBuf.take n ++ oldBuf.drop o)
            (DomOperation.delete n (n + op.oldLen))
          = newBuf.take (n + op.newLen) ++ oldBuf.drop (o + op.oldLen) := by
        simp only [applyOp]
        rw [take_prefix_append _ _ _ htn, drop_prefix_append_add _ _ _ _ htn,
          List.drop_drop, htag, Nat.add_zero]
      rw [happly]
      exact ih (o + op.oldLen) (n + op.newLen) hrest hlossrest
    | replace =>
      have hl := hloss op (List.mem_cons_self op rest) (Or.inr hop)
      simp only [diffToOps, hop, List.singleton_append]
      rw [applyOps_cons, hl]
      have happly : applyOp (newBuf.take n ++ oldBuf.drop o)
            (DomOperation.replace n (n + op.oldLen) (slice newBuf op.newStart op.newLen))
          = newBuf.take (n + op.newLen) ++ oldBuf.drop (o + op.oldLen) := by
        simp only [applyOp]
        rw [take_prefix_append _ _ _ htn, drop_prefix_append_add _ _ _ _ htn,
          List.drop_drop, hn, take_slice_append]
      rw [happly]
      exact ih (o + op.oldLen) (n + op.newLen) hrest hlossrest

end DomSync

namespace DomSync

/-- Units below the surrogate range pass `utf16Lossy` unchanged. -/
lemma utf16Lossy_of_below_surrogates :
    ∀ (l : List Nat), (∀ u ∈ l, u < 0xD800) → utf16Lossy l = l := by
  intro l
  induction l with
  | nil => intro _; rfl
  | cons u rest ih =>
    intro hall
    have hu := hall u (List.mem_cons_self u rest)
    have h1 : ¬(0xD800 ≤ u ∧ u ≤ 0xDBFF) := by omega
    have h2 : ¬(0xDC00 ≤ u ∧ u ≤ 0xDFFF) := by omega
    rw [utf16Lossy.eq_def]
    simp only [h1, h2, if_false]
    rw [ih (fun v hv => hall v (List.mem_cons_of_mem _ hv))]

/-- Old buffer for the C6 counterexample: the surrogate pair `D83D DE00`
(U+1F600) followed by 998 units of `a`. -/
def surrOld : List Nat := 0xD83D :: 0xDE00 :: List.replicate 998 0x61

/-- New buffer for the C6 counterexample: the surrogate pair `D83D DE01`
(U+1F601) followed by 998 units of `a`. -/
def surrNew : List Nat := 0xD83D :: 0xDE01 :: List.replicate 998 0x61

/-- A valid Myers diff between `surrOld` and `surrNew` whose `Replace`
segment splits the surrogate pair: equal on the shared high surrogate,
replace the low surrogate, equal on the shared tail — exactly the shape
common-prefix/suffix trimming produces. -/
def surrDiff : List DiffOp :=
  [⟨DiffTag.equal, 0, 1, 0, 1⟩, ⟨DiffTag.replace, 1, 1, 1, 1⟩,
   ⟨DiffTag.equal, 2, 998, 2, 998⟩]

set_option maxRecDepth 4000 in
/-- Counterexample to C6: on this `≥ 1000`-unit changed encoding and valid
diff, the emitted `Replace` payload is the lone low surrogate `DE01`, which
`String::from_utf16_lossy` replaces by `U+FFFD`; applying the operation list
to the old buffer therefore does not reconstruct the new buffer. -/
theorem dom_diff_lone_surrogate_counterexample :
    ValidDiff surrOld surrNew surrDiff 0 0
    ∧ surrNew ≠ surrOld
    ∧ 1000 ≤ surrNew.length
    ∧ applyOps surrOld (diffToOps surrNew surrDiff 0) ≠ surrNew := by
  refine ⟨⟨rfl, rfl, ⟨rfl, rfl⟩, rfl, rfl, trivial, rfl, rfl, ⟨rfl, rfl⟩, ?_, ?_⟩,
    by decide, ?_, by decide⟩
  · have h : surrOld.length = 1000 := by
      unfold surrOld
      simp only [List.length_cons, List.length_replicate]
    rw [h]
    decide
  · have h : surrNew.length = 1000 := by
      unfold surrNew
      simp only [List.length_cons, List.length_replicate]
    rw [h]
    decide
  · have h : surrNew.length = 1000 := by
      unfold surrNew
      simp only [List.length_cons, List.length_replicate]
    rw [h]

/-- C6 as amended: for a changed encoding of at least `MINIMUM_DIFF_LEN =
1000` UTF-16 units, the `DomOperation` list produced by walking a valid
Myers diff — `Insert` / `Delete` / `Replace` ops with `Equal` segments
skipped, `from` advanced by the consumed new-range length after every
segment — applied to the old buffer in order with positions read as UTF-16
offsets into the post-patch buffer, reconstructs the new buffer exactly,
provided every `Insert` / `Replace` segment new-range slice survives
`String::from_utf16_lossy` unchanged (no segment boundary leaves an
unpaired surrogate in an emitted slice; in particular whenever the encoding
has no surrogate units). -/
theorem dom_diff_patch_reconstructs (oldBuf newBuf : List Nat) (ops : List DiffOp)
    (_hne : newBuf ≠ oldBuf)
    (_hlen : 1000 ≤ newBuf.length)
    (hvalid : ValidDiff oldBuf newBuf ops 0 0)
    (hlossless : ∀ op ∈ ops, (op.tag = DiffTag.insert ∨ op.tag = DiffTag.replace) →
      utf16Lossy (slice newBuf op.newStart op.newLen) = slice newBuf op.newStart op.newLen) :
    applyOps oldBuf (diffToOps newBuf ops 0) = newBuf := by
  have h := applyOps_diffToOps oldBuf newBuf ops 0 0 hvalid hlossless
  simpa using h

/-- Witness for the amended C6: a coarse one-segment `Replace` diff between
two surrogate-free 1000-unit buffers reconstructs the new buffer. -/
theorem dom_diff_patch_reconstructs_witness :
    applyOps (List.replicate 1000 0)
        (diffToOps (List.replicate 1000 1) [⟨DiffTag.replace, 0, 1000, 0, 1000⟩] 0)
      = List.replicate 1000 1 :=
  dom_diff_patch_reconstructs (List.replicate 1000 0) (List.replicate 1000 1)
    [⟨DiffTag.replace, 0, 1000, 0, 1000⟩]
    (by decide) (le_of_eq (List.length_replicate 1000 1).symm)
    ⟨rfl, rfl, trivial, by simp only [List.length_replicate], by simp only [List.length_replicate]⟩
    (by
      intro op hmem _
      rw [List.mem_singleton] at hmem
      subst hmem
      refine utf16Lossy_of_below_surrogates _ ?_
      intro u hu
      have : u = 1 := by
        unfold slice at hu
        exact List.eq_of_mem_replicate (List.mem_of_mem_drop (List.mem_of_mem_take hu))
      omega)

end DomSync
